import Mathlib

/-!
Verification development for the TX-FH-Allowed-Medical repository.

The online component (`src/app/main.py`) is a rate-resolution service over a
table `allowed_amounts` of benchmark rate rows; the offline component
(`src/scripts/excel_to_sqlite.py`) ingests spreadsheet files into that table.
This file gives a shallow embedding of both components and proves properties
about them.  The store is modelled as a `List RateRow`; SQL exact-match
queries become list filters; the Python dict keyed by product (last writer
wins) becomes `lastWithProduct`; pandas frames become `Frame` (a list of
named columns).
-/

namespace TXFH

/-- Canonical stored rate row of the `allowed_amounts` table, as produced by
the ingestion script: integer geozip, text code, nullable modifier, text
product and description, the eight percentile columns (kept opaque as text —
the service does no arithmetic on them), and the provenance tag. -/
structure RateRow where
  geozip : Int
  code : String
  modifier : Option String
  product : String
  description : String
  p50 : String
  p60 : String
  p70 : String
  p75 : String
  p80 : String
  p85 : String
  p90 : String
  p95 : String
  source_file : String
deriving DecidableEq, Repr

/-- Python `str.strip()`: remove leading and trailing whitespace.  Defined
by structural recursion over the character list so that it evaluates inside
the kernel (Lean's own `String.trim` is definitionally opaque here). -/
def pyStrip (s : String) : String :=
  ⟨((s.data.dropWhile Char.isWhitespace).reverse.dropWhile Char.isWhitespace).reverse⟩

/-- Code-point comparison of two characters, as Python compares characters
inside strings. -/
def charLt (a b : Char) : Bool := decide (a.toNat < b.toNat)

/-- Lexicographic code-point order on character lists: Python's `<` on
strings, used by `sorted`. -/
def strLtB : List Char → List Char → Bool
  | [], [] => false
  | [], _ :: _ => true
  | _ :: _, [] => false
  | a :: as, b :: bs =>
    if charLt a b then true
    else if charLt b a then false
    else strLtB as bs

/-- Python string comparison (strict, lexicographic on code points). -/
def strLt (s t : String) : Bool := strLtB s.data t.data

/-- Python truthiness of an optional string (`if s:`): false for `None` and
for the empty string. -/
def pyTruthy : Option String → Bool
  | none => false
  | some s => !(s == "")

/-- Models `x.strip() if x else None` (main.py, the `modifier_clean` /
`product_clean` lines): `None` and `""` give `None`, otherwise the stripped
text (which may itself be empty, e.g. for an all-blank input). -/
def pyCleanOpt : Option String → Option String
  | none => none
  | some s => if s = "" then none else some (pyStrip s)

/-- Models the Python expression `product_clean or ""`. -/
def pyOrEmpty : Option String → String
  | none => ""
  | some s => if s = "" then "" else s

/-- Product scope of both store queries: the SQL text gains `AND product = ?`
only when the cleaned product filter is truthy (main.py `product_clause`). -/
def productOK (pc : Option String) (r : RateRow) : Bool :=
  match pc with
  | none => true
  | some p => if p = "" then true else r.product == p

/-- Row predicate of the modifier-specific query AS EXECUTED.  The SQL text
is `geozip = ? AND code = ? AND modifier = ?` followed by the optional
`AND product = ?`, but the parameter list is `params_base + [modifier_clean]`
and `params_base` already ends in the product filter when one was supplied —
so the placeholders, ordered geozip, code, modifier, product, receive the
values geozip, code, product, modifier: with a truthy product filter the
modifier placeholder is bound to the PRODUCT filter and the product
placeholder to the MODIFIER.  Without a truthy product filter there is no
product clause and the parameters line up as the column names suggest.  SQL
equality against a parameter never matches NULL, so only rows with a
non-null modifier can match. -/
def modifierRowPred (g : Int) (cc : String) (m : String) (pc : Option String)
    (r : RateRow) : Bool :=
  match pc with
  | none => r.geozip == g && r.code == cc && r.modifier == some m
  | some p =>
    if p = "" then r.geozip == g && r.code == cc && r.modifier == some m
    else r.geozip == g && r.code == cc && r.modifier == some p && r.product == m

/-- Row predicate of the base query: `geozip = ? AND code = ? AND (modifier
IS NULL OR modifier = '')` plus the optional product clause. -/
def baseRowPred (g : Int) (cc : String) (pc : Option String) (r : RateRow) : Bool :=
  r.geozip == g && r.code == cc && (r.modifier == none || r.modifier == some "")
    && productOK pc r

/-- Result of the modifier-specific query for one cleaned code `cc`.  The
query only runs when the cleaned modifier is truthy (`if modifier_clean:`),
otherwise `modifier_rows = []`; its row predicate carries the transposed
parameter binding of the source (see `modifierRowPred`). -/
def modifierRowsOf (store : List RateRow) (g : Int) (mc pc : Option String)
    (cc : String) : List RateRow :=
  match mc with
  | none => []
  | some m => if m = "" then [] else store.filter (modifierRowPred g cc m pc)

/-- Result of the base query for one cleaned code `cc`. -/
def baseRowsOf (store : List RateRow) (g : Int) (pc : Option String)
    (cc : String) : List RateRow :=
  store.filter (baseRowPred g cc pc)

/-- Python `dict` keyed by product, built by iterating the query rows in
order: the value at key `p` is the LAST row whose product is `p`. -/
def lastWithProduct (rows : List RateRow) (p : String) : Option RateRow :=
  (rows.filter (fun r => r.product == p)).getLast?

/-- Insert a string into a strictly sorted list, keeping it strictly sorted
and duplicate-free. -/
def insortNodup (s : String) : List String → List String
  | [] => [s]
  | t :: ts =>
    if s = t then t :: ts
    else if strLt s t then s :: t :: ts
    else t :: insortNodup s ts

/-- Models Python `sorted(set(l))`: the strictly increasing enumeration of
the distinct elements of `l` under Python's code-point lexicographic string
order. -/
def sortedKeys (l : List String) : List String := l.foldr insortNodup []

/-- The set `products_seen` of main.py in its deterministic iteration order:
`sorted(set(base_by_product.keys()) | set(modifier_by_product.keys()))`.
Every stored row carries a product string, so the keys are the products of
the rows returned by the two queries. -/
def productsSeen (store : List RateRow) (g : Int) (mc pc : Option String)
    (cc : String) : List String :=
  sortedKeys ((baseRowsOf store g pc cc).map (fun r => r.product)
    ++ (modifierRowsOf store g mc pc cc).map (fun r => r.product))

/-- The modifier-dict entry for product `p` (`modifier_by_product.get(p)`). -/
def modAt (store : List RateRow) (g : Int) (mc pc : Option String)
    (cc p : String) : Option RateRow :=
  lastWithProduct (modifierRowsOf store g mc pc cc) p

/-- The base-dict entry for product `p` (`base_by_product.get(p)`). -/
def baseAt (store : List RateRow) (g : Int) (pc : Option String)
    (cc p : String) : Option RateRow :=
  lastWithProduct (baseRowsOf store g pc cc) p

/-- One element of the response list: either a stored row with the
`match_type` key added (`row = dict(r); row["match_type"] = ...`), or the
no-match placeholder dict, whose only keys are the code, product,
description, match_type and the eight percentile columns. -/
inductive Entry where
  | found (row : RateRow) (match_type : String)
  | placeholder (code product description match_type p50 p60 p70 p75 p80 p85 p90 p95 : String)
deriving DecidableEq, Repr

/-- One `lookup_log` audit record (main.py `log_lookup`); the wall-clock
timestamp column is omitted from the model.  `product` is `Option` because
the no-match branch logs the raw cleaned product filter, which may be null. -/
structure LogEntry where
  geozip : Int
  code : String
  modifier : Option String
  product : Option String
  match_type : String
  success : Nat
deriving DecidableEq, Repr

/-- The per-product selection of the resolver loop (main.py): prefer the
modifier-specific row when a truthy modifier was supplied and one exists,
else the base row (tagged by whether a modifier was requested), else the
modifier row anyway (the code reads `modifier_by_product[p]`; when that dict
has no entry for `p` the Python code would raise a KeyError, modelled here as
`none` — the case is proved unreachable for products actually seen). -/
def pickRow (modTruthy : Bool) (modRow baseRow : Option RateRow) :
    Option (RateRow × String) :=
  if modTruthy && modRow.isSome then
    modRow.map (fun r => (r, "Modifier-specific rate"))
  else if baseRow.isSome then
    baseRow.map (fun r =>
      (r, if modTruthy then "Base rate (modifier not on file)" else "Base rate (no modifier)"))
  else
    modRow.map (fun r => (r, "Modifier-specific rate"))

/-- The selection for product `p` of one resolved code. -/
def pickAt (store : List RateRow) (g : Int) (mc pc : Option String)
    (cc p : String) : Option (RateRow × String) :=
  pickRow (pyTruthy mc) (modAt store g mc pc cc p) (baseAt store g pc cc p)

/-- Resolution of a single requested code `c` (one iteration of the
`for c in code:` loop of main.py): returns the response entries and the
audit-log records appended for this code, in order.  The code is trimmed,
the two queries run, the product keys seen are iterated in sorted order, and
either one placeholder (with a failure log) or one entry per product (each
with a success log) is emitted. -/
def resolveCode (store : List RateRow) (g : Int) (mc pc : Option String)
    (c : String) : List Entry × List LogEntry :=
  let cc := (pyStrip c)
  let seen := productsSeen store g mc pc cc
  if seen.isEmpty then
    ([Entry.placeholder cc (pyOrEmpty pc) "" ("No match found") "" "" "" "" "" "" "" ""],
     [⟨g, cc, mc, pc, "No match found", 0⟩])
  else
    let picks := seen.filterMap (pickAt store g mc pc cc)
    (picks.map (fun rt => Entry.found rt.1 rt.2),
     picks.map (fun rt => ⟨g, cc, mc, some rt.1.product, rt.2, 1⟩))

/-- The full `/lookup` resolution: clean the optional modifier and product,
resolve every requested code in caller order, and concatenate the per-code
entries (the response) and the per-code log records (the audit trail). -/
def lookup (store : List RateRow) (g : Int) (codes : List String)
    (modifier product : Option String) : List Entry × List LogEntry :=
  let mc := pyCleanOpt modifier
  let pc := pyCleanOpt product
  ((codes.map (fun c => (resolveCode store g mc pc c).1)).flatten,
   (codes.map (fun c => (resolveCode store g mc pc c).2)).flatten)

/-- Outcome of one HTTP request to the handler. -/
inductive Outcome where
  | ok (entries : List Entry)
  | error
deriving DecidableEq, Repr

/-- Connection bookkeeping of one request: whether the sqlite connection was
acquired, and whether it was closed by the time the request finished. -/
structure ExecTrace where
  outcome : Outcome
  connAcquired : Bool
  connClosed : Bool
deriving DecidableEq, Repr

/-- Control flow of the `/lookup` handler around its connection, with fault
injection for the two sqlite interactions that can raise: `conn =
get_connection()` (acquire); then `ensure_log_table(conn)` — executed BEFORE
the `try:` block, `ensureOk = false` models it raising; then the resolution
loop inside `try: ... finally: conn.close()`, `bodyOk = false` models an
exception inside the try block, which the `finally` still closes. -/
def lookupHandler (store : List RateRow) (g : Int) (codes : List String)
    (modifier product : Option String) (ensureOk bodyOk : Bool) : ExecTrace :=
  if !ensureOk then ⟨Outcome.error, true, false⟩
  else if !bodyOk then ⟨Outcome.error, true, true⟩
  else ⟨Outcome.ok (lookup store g codes modifier product).1, true, true⟩

/-- Projection used to state per-product properties of response entries. -/
def entryProduct : Entry → String
  | Entry.found r _ => r.product
  | Entry.placeholder _ p _ _ _ _ _ _ _ _ _ _ => p

/-- Projection used to state per-code grouping of response entries. -/
def entryCode : Entry → String
  | Entry.found r _ => r.code
  | Entry.placeholder c _ _ _ _ _ _ _ _ _ _ _ => c

/-- Match classification carried by a response entry. -/
def entryMatchType : Entry → String
  | Entry.found _ mt => mt
  | Entry.placeholder _ _ _ mt _ _ _ _ _ _ _ _ => mt

/-- Success flag a resolution outcome should be logged with: 1 for a real
match, 0 for the no-match placeholder. -/
def entrySuccess : Entry → Nat
  | Entry.found _ _ => 1
  | Entry.placeholder _ _ _ _ _ _ _ _ _ _ _ _ => 0

/-- The response entries of one resolved code, restricted to one product. -/
def entriesFor (store : List RateRow) (g : Int) (mc pc : Option String)
    (c p : String) : List Entry :=
  ((resolveCode store g mc pc c).1).filter (fun e => entryProduct e == p)

/-- A store row matches the per-code resolution queries if it satisfies the
base query or — when a truthy modifier was supplied — the modifier query. -/
def matchesQueries (g : Int) (mc pc : Option String) (cc : String) (r : RateRow) : Bool :=
  baseRowPred g cc pc r ||
    (match mc with
     | none => false
     | some m => if m = "" then false else modifierRowPred g cc m pc r)

/-- Concrete base-rate row used by the witnesses. -/
def wRowBase : RateRow :=
  ⟨75001, "99213", none, "PPO", "Office visit", "100", "105", "110", "112",
    "120", "125", "130", "140", "fh.xlsx"⟩

/-- Concrete modifier-specific row used by the witnesses. -/
def wRowMod : RateRow :=
  ⟨75001, "99213", some "25", "PPO", "Office visit", "90", "95", "99", "101",
    "108", "112", "117", "126", "fh.xlsx"⟩

/-- Concrete second-product row used by the witnesses. -/
def wRowHMO : RateRow :=
  ⟨75001, "99213", none, "HMO", "Office visit", "80", "85", "88", "90",
    "96", "100", "104", "112", "fh.xlsx"⟩

/-- Concrete row whose modifier and product texts are swapped relative to
the request of the transposition exhibit. -/
def wRowSwap : RateRow :=
  ⟨75001, "99213", some "PPO", "25", "Office visit", "70", "75", "78", "80",
    "86", "90", "94", "102", "fh.xlsx"⟩

/-- A spreadsheet cell as the ingestion pipeline sees it: text, an integer
(after geozip coercion), or a missing value (pandas NaN / None). -/
inductive Cell where
  | str (s : String)
  | intv (i : Int)
  | null
deriving DecidableEq, Repr

/-- The pandas `astype(str)` view of a cell: text stays itself, integers
print in decimal, a missing value renders as "nan". -/
def cellToStr : Cell → String
  | Cell.str s => s
  | Cell.intv i => toString i
  | Cell.null => "nan"

/-- Outcome of `pd.to_numeric(errors="coerce")` on one cell, as far as the
pipeline can observe it: a finite value (recorded as its `astype(int)`
truncation toward zero), a non-finite value (infinity text), or NaN (parse
failure, or a missing value). -/
inductive Coerced where
  | ival (i : Int)
  | nonfinite
  | nan
deriving DecidableEq, Repr

/-- Split the leading decimal digits off a character list. -/
def takeDigits : List Char → List Nat × List Char
  | [] => ([], [])
  | c :: cs =>
    if c.toNat ≥ 48 ∧ c.toNat ≤ 57 then
      match takeDigits cs with
      | (ds, rest) => ((c.toNat - 48) :: ds, rest)
    else ([], c :: cs)

/-- Value of a digit list read in base ten. -/
def digitsToNat (ds : List Nat) : Nat := ds.foldl (fun acc d => acc * 10 + d) 0

/-- Exponent suffix after the `e`: an optional sign then at least one digit,
and nothing else. -/
def parseExp : List Char → Option Int
  | [] => none
  | c :: cs =>
    if c = '-' then
      match takeDigits cs with
      | (ds, rest) =>
        if ds = [] ∨ rest ≠ [] then none else some (-(digitsToNat ds : Int))
    else if c = '+' then
      match takeDigits cs with
      | (ds, rest) =>
        if ds = [] ∨ rest ≠ [] then none else some ((digitsToNat ds : Int))
    else
      match takeDigits (c :: cs) with
      | (ds, rest) =>
        if ds = [] ∨ rest ≠ [] then none else some ((digitsToNat ds : Int))

/-- Unsigned mantissa: digits, an optional single decimal point, digits —
at least one digit in total.  Returns the digit value, the fraction length
and the remaining text. -/
def parseMantissa (cs : List Char) : Option (Nat × Nat × List Char) :=
  match takeDigits cs with
  | (ids, r1) =>
    match r1 with
    | '.' :: r2 =>
      (match takeDigits r2 with
       | (fds, r3) =>
         if ids = [] ∧ fds = [] then none
         else some (digitsToNat (ids ++ fds), fds.length, r3))
    | _ => if ids = [] then none else some (digitsToNat ids, 0, r1)

/-- Unsigned finite numeric literal: a mantissa with an optional exponent. -/
def parseFinite? (cs : List Char) : Option (Nat × Nat × Int) :=
  match parseMantissa cs with
  | none => none
  | some (m, fl, rest) =>
    match rest with
    | [] => some (m, fl, (0 : Int))
    | c :: cs2 =>
      if c = 'e' ∨ c = 'E' then (parseExp cs2).map (fun e => (m, fl, e)) else none

/-- Truncation toward zero of the non-negative value `m * 10 ^ (e - fl)`:
the `astype(int)` cast of a finite parse (exact except for binary float
rounding at extreme precision, which is out of scope). -/
def truncVal (m : Nat) (fl : Nat) (e : Int) : Int :=
  if 0 ≤ e - (fl : Int) then (m : Int) * (10 : Int) ^ (e - (fl : Int)).toNat
  else Int.ofNat (m / 10 ^ (((fl : Int) - e).toNat))

/-- Classification of unsigned numeric text (the sign was consumed by the
caller): the infinity literals are non-finite, the nan literal and anything
unparseable are NaN, and a finite literal is truncated to an integer. -/
def coerceUnsigned (cs : List Char) (neg : Bool) : Coerced :=
  if cs.map Char.toLower = ("inf").data ∨ cs.map Char.toLower = ("infinity").data then
    Coerced.nonfinite
  else if cs.map Char.toLower = ("nan").data then Coerced.nan
  else
    match parseFinite? cs with
    | none => Coerced.nan
    | some (m, fl, e) =>
      if neg then Coerced.ival (-(truncVal m fl e)) else Coerced.ival (truncVal m fl e)

/-- Pandas numeric coercion of text: optional sign, then an infinity or nan
literal or a finite decimal/scientific literal. -/
def coerceChars : List Char → Coerced
  | [] => Coerced.nan
  | c :: rest =>
    if c = '-' then coerceUnsigned rest true
    else if c = '+' then coerceUnsigned rest false
    else coerceUnsigned (c :: rest) false

/-- Coercion of one geozip cell, modelling `pd.to_numeric(errors="coerce")`
followed by `astype(int)` (excel_to_sqlite.py `normalize_geozip`): numbers
pass through; text is stripped and parsed as a decimal/scientific literal
(kept truncated toward zero, so "75001.0" coerces to 75001) or recognized as
an infinity or nan literal; anything unparseable is NaN. -/
def toNumericCoerce : Cell → Coerced
  | Cell.intv i => Coerced.ival i
  | Cell.null => Coerced.nan
  | Cell.str s => coerceChars (pyStrip s).data

/-- The integer a geozip cell is stored as, when the row survives.  NaN rows
are dropped by `dropna(subset=["geozip"])`.  A NON-finite coercion ("inf")
is mapped to `none` here to keep the build total, but that is a deliberate,
recorded divergence: the real program's `dropna` keeps such a row (infinity
is not NaN) and `astype(int)` then raises, aborting the build — see
`geozip_coercion_exhibit`. -/
def toNumericInt? (c : Cell) : Option Int :=
  match toNumericCoerce c with
  | Coerced.ival i => some i
  | Coerced.nonfinite => none
  | Coerced.nan => none

/-- A pandas DataFrame: named columns in order, each a list of cells (all of
equal length in a well-formed frame). -/
structure Frame where
  cols : List (String × List Cell)
deriving DecidableEq, Repr

/-- The header (column-name) list of a frame. -/
def Frame.colNames (f : Frame) : List String := f.cols.map (fun c => c.1)

/-- Column access `df[n]`: the first column named `n`. -/
def Frame.getCol (f : Frame) (n : String) : Option (List Cell) :=
  (f.cols.find? (fun c => c.1 == n)).map (fun c => c.2)

/-- Number of rows (length of the first column, as pandas `len(df)`). -/
def Frame.nrows (f : Frame) : Nat :=
  match f.cols with
  | [] => 0
  | c :: _ => c.2.length

/-- Column assignment `df[n] = cells`: replace every column named `n`, or
append a new column when none exists. -/
def Frame.setCol (f : Frame) (n : String) (cells : List Cell) : Frame :=
  if f.cols.any (fun c => c.1 == n) then
    ⟨f.cols.map (fun c => if c.1 == n then (n, cells) else c)⟩
  else ⟨f.cols ++ [(n, cells)]⟩

/-- Column rename `df.rename(columns={a: b})`. -/
def Frame.renameCol (f : Frame) (a b : String) : Frame :=
  ⟨f.cols.map (fun c => if c.1 == a then (b, c.2) else c)⟩

/-- Header normalization per character (excel_to_sqlite.py
`normalize_columns`): lowercase, spaces to underscores, `%` to `th` (the
one-to-two replacement forces a list recursion rather than a char map). -/
def normHeaderChars : List Char → List Char
  | [] => []
  | c :: cs =>
    if c = ' ' then '_' :: normHeaderChars cs
    else if c = '%' then 't' :: 'h' :: normHeaderChars cs
    else c.toLower :: normHeaderChars cs

/-- Full header normalization: strip, lowercase, spaces to underscores, `%`
to `th`. -/
def normHeader (s : String) : String := ⟨normHeaderChars (pyStrip s).data⟩

/-- Normalize every column name of a frame. -/
def normalize_columns (f : Frame) : Frame :=
  ⟨f.cols.map (fun c => (normHeader c.1, c.2))⟩

/-- The required columns, in the order `sorted` would list them (the source
set is `{"geozip", "code", "product"}`). -/
def requiredCols : List String := ["code", "geozip", "product"]

/-- The required columns absent from a frame, in sorted order. -/
def missingRequired (f : Frame) : List String :=
  requiredCols.filter (fun c => !(f.colNames.contains c))

/-- The `ValueError` message of `validate_required`: the file name and the
sorted missing column names (list punctuation simplified). -/
def schemaErrorMsg (name : String) (missing : List String) : String :=
  name ++ (": Missing required column(s): ") ++ String.intercalate (", ") missing

/-- Schema validation of one source file (excel_to_sqlite.py
`validate_required`): error out unless every required column is present. -/
def validate_required (f : Frame) (filename : String) : Except String Unit :=
  if missingRequired f = [] then Except.ok ()
  else Except.error (schemaErrorMsg filename (missingRequired f))

/-- The prioritized description column aliases. -/
def descAliases : List String :=
  ["description", "full_description", "procedure_description"]

/-- Description resolution (excel_to_sqlite.py `normalize_description`): the
first alias present is renamed to `description`; if none is present a blank
description column is added. -/
def normalize_description (f : Frame) : Frame :=
  match descAliases.find? (fun c => f.colNames.contains c) with
  | some c => if c = "description" then f else f.renameCol c ("description")
  | none => f.setCol ("description") (List.replicate f.nrows (Cell.str ""))

/-- Remove one trailing ".0" from a REVERSED character list (the regex
`\.0$` of `normalize_code` matches at most once, anchored at the end). -/
def stripTrailingDotZero : List Char → List Char
  | [] => []
  | [c] => [c]
  | c1 :: c2 :: rest => if c1 = '0' ∧ c2 = '.' then rest else c1 :: c2 :: rest

/-- Code cell normalization: cast to text, strip, drop one trailing ".0". -/
def codeNorm (s : String) : String :=
  ⟨(stripTrailingDotZero (pyStrip s).data.reverse).reverse⟩

/-- Whether a string ends in the two literal characters ".0". -/
def endsDotZero (s : String) : Bool :=
  match s.data.reverse with
  | c1 :: c2 :: _ => decide (c1 = '0' ∧ c2 = '.')
  | _ => false

/-- Whether a string ends in the four literal characters ".0.0". -/
def endsDotZeroZero (s : String) : Bool :=
  match s.data.reverse with
  | c1 :: c2 :: c3 :: c4 :: _ =>
    decide (c1 = '0' ∧ c2 = '.' ∧ c3 = '0' ∧ c4 = '.')
  | _ => false

/-- Apply `normalize_code` to the code column. -/
def normalize_code (f : Frame) : Frame :=
  f.setCol ("code")
    (((f.getCol ("code")).getD []).map (fun c => Cell.str (codeNorm (cellToStr c))))

/-- Keep the cells whose mask entry is true (row filtering, columnwise). -/
def applyMask (mask : List Bool) (cs : List Cell) : List Cell :=
  ((mask.zip cs).filter (fun bc => bc.1)).map (fun bc => bc.2)

/-- Geozip normalization (excel_to_sqlite.py `normalize_geozip`): coerce the
geozip column, drop every row whose geozip does not coerce (the NaN mask is
applied to every column, as `dropna(subset=["geozip"])` drops whole rows),
and store the surviving geozips as integers. -/
def normalize_geozip (f : Frame) : Frame :=
  Frame.setCol
    ⟨f.cols.map (fun c =>
      (c.1, applyMask (((f.getCol ("geozip")).getD []).map
        (fun c0 => (toNumericInt? c0).isSome)) c.2))⟩
    ("geozip")
    (((f.getCol ("geozip")).getD []).filterMap
      (fun c => (toNumericInt? c).map Cell.intv))

/-- Modifier cell normalization: cast to text, strip, and map the literal
values "", "nan", "NaN", "None" to null. -/
def modifierNorm (c : Cell) : Cell :=
  if pyStrip (cellToStr c) = "" ∨ pyStrip (cellToStr c) = "nan" ∨
      pyStrip (cellToStr c) = "NaN" ∨ pyStrip (cellToStr c) = "None"
  then Cell.null
  else Cell.str (pyStrip (cellToStr c))

/-- Modifier column normalization: normalize the column when present,
otherwise add an all-null modifier column (`df["modifier"] = None`). -/
def normalize_modifier (f : Frame) : Frame :=
  if f.colNames.contains ("modifier") then
    f.setCol ("modifier") (((f.getCol ("modifier")).getD []).map modifierNorm)
  else f.setCol ("modifier") (List.replicate f.nrows Cell.null)

/-- Product column normalization: cast to text and strip, never nulled. -/
def normalize_product (f : Frame) : Frame :=
  f.setCol ("product")
    (((f.getCol ("product")).getD []).map (fun c => Cell.str (pyStrip (cellToStr c))))

/-- Provenance tag: `df["source_file"] = file name` for every row. -/
def tagSourceFile (f : Frame) (name : String) : Frame :=
  f.setCol ("source_file") (List.replicate f.nrows (Cell.str name))

/-- One stored table row: column name / cell pairs in column order. -/
abbrev Row := List (String × Cell)

/-- The contents of the `allowed_amounts` table as loaded rows. -/
abbrev Table := List Row

/-- Row extraction for `to_sql`: one row per index, pairing each column name
with its cell at that index. -/
def Frame.toRows (f : Frame) : List Row :=
  (List.range f.nrows).map (fun i =>
    f.cols.map (fun c => (c.1, c.2.getD i Cell.null)))

/-- The per-file normalization pipeline applied after validation, in source
order: description, code, geozip, modifier, product, provenance tag. -/
def pipelineAfterValidate (name : String) (f1 : Frame) : Frame :=
  tagSourceFile
    (normalize_product (normalize_modifier (normalize_geozip
      (normalize_code (normalize_description f1))))) name

/-- The rows one source file contributes to the store. -/
def fileRows (name : String) (fr : Frame) : List Row :=
  (pipelineAfterValidate name (normalize_columns fr)).toRows

/-- The ingestion loop of `build_database`: process files in order, validate
each after header normalization, abort the whole run on the first schema
error (the exception propagates, leaving the rows already appended), and
otherwise append the file's normalized rows. -/
def buildGo : Table → List (String × Frame) → Table × Option String
  | t, [] => (t, none)
  | t, (name, fr) :: rest =>
    match validate_required (normalize_columns fr) name with
    | Except.error e => (t, some e)
    | Except.ok _ => buildGo (t ++ fileRows name fr) rest

/-- Full build (excel_to_sqlite.py `build_database`): with no source files
it errors before touching the store; otherwise it drops the prior table
contents entirely (the run starts from the empty table) and loads the files
in order.  Returns the resulting table state and the error, if any. -/
def build_database (prior : Table) (files : List (String × Frame)) :
    Table × Option String :=
  if files.isEmpty then (prior, some ("No .xlsx files found"))
  else buildGo [] files

/-- Concrete well-formed one-row source file used by the witnesses. -/
def wFrameGood : Frame :=
  ⟨[("geozip", [Cell.str "75001"]), ("code", [Cell.str "99213"]),
    ("product", [Cell.str "PPO"]), ("description", [Cell.str "Office visit"])]⟩

/-- Concrete source file whose code cell ends in ".0.0". -/
def wFrameDotZero : Frame :=
  ⟨[("geozip", [Cell.str "1"]), ("code", [Cell.str "1.0.0"]),
    ("product", [Cell.str "P"])]⟩

/-- Concrete source file missing the required product column. -/
def wFrameBad : Frame :=
  ⟨[("geozip", [Cell.str "1"]), ("code", [Cell.str "2"])]⟩

/-- Concrete source file whose geozip cell is decimal text. -/
def wFrameDecimal : Frame :=
  ⟨[("geozip", [Cell.str "75001.0"]), ("code", [Cell.str "99213"]),
    ("product", [Cell.str "PPO"])]⟩

/-- Characters with equal code points are equal. -/
theorem char_toNat_inj {a b : Char} (h : a.toNat = b.toNat) : a = b :=
  Char.ext (UInt32.toNat.inj h)

/-- The lexicographic order on character lists is irreflexive. -/
theorem strLtB_irrefl : ∀ as : List Char, strLtB as as = false
  | [] => rfl
  | a :: as => by
    simp [strLtB, charLt, strLtB_irrefl as]

/-- The lexicographic order on character lists is transitive. -/
theorem strLtB_trans : ∀ {as bs cs : List Char}, strLtB as bs = true →
    strLtB bs cs = true → strLtB as cs = true
  | [], [], _, h1, _ => by simp [strLtB] at h1
  | [], _ :: _, [], _, h2 => by simp [strLtB] at h2
  | [], _ :: _, _ :: _, _, _ => rfl
  | _ :: _, [], _, h1, _ => by simp [strLtB] at h1
  | _ :: _, _ :: _, [], _, h2 => by simp [strLtB] at h2
  | a :: as, b :: bs, c :: cs, h1, h2 => by
    simp only [strLtB, charLt, decide_eq_true_eq] at h1 h2 ⊢
    by_cases hab : a.toNat < b.toNat
    · by_cases hbc : b.toNat < c.toNat
      · have hac : a.toNat < c.toNat := Nat.lt_trans hab hbc
        simp [hac]
      · rw [if_neg hbc] at h2
        by_cases hcb : c.toNat < b.toNat
        · rw [if_pos hcb] at h2; cases h2
        · have hac : a.toNat < c.toNat := by omega
          simp [hac]
    · rw [if_neg hab] at h1
      by_cases hba : b.toNat < a.toNat
      · rw [if_pos hba] at h1; cases h1
      · rw [if_neg hba] at h1
        by_cases hbc : b.toNat < c.toNat
        · have hac : a.toNat < c.toNat := by omega
          simp [hac]
        · rw [if_neg hbc] at h2
          by_cases hcb : c.toNat < b.toNat
          · rw [if_pos hcb] at h2; cases h2
          · rw [if_neg hcb] at h2
            have hac1 : ¬(a.toNat < c.toNat) := by omega
            have hac2 : ¬(c.toNat < a.toNat) := by omega
            rw [if_neg hac1, if_neg hac2]
            exact strLtB_trans h1 h2

/-- Character lists unrelated by the order in either direction are equal. -/
theorem strLtB_eq_of_not : ∀ {as bs : List Char}, strLtB as bs = false →
    strLtB bs as = false → as = bs
  | [], [], _, _ => rfl
  | [], _ :: _, h1, _ => by simp [strLtB] at h1
  | _ :: _, [], _, h2 => by simp [strLtB] at h2
  | a :: as, b :: bs, h1, h2 => by
    simp only [strLtB, charLt, decide_eq_true_eq] at h1 h2
    by_cases hab : a.toNat < b.toNat
    · rw [if_pos hab] at h1; cases h1
    · by_cases hba : b.toNat < a.toNat
      · rw [if_pos hba] at h2; cases h2
      · rw [if_neg hab, if_neg hba] at h1
        rw [if_neg hba, if_neg hab] at h2
        have hc : a = b := char_toNat_inj (by omega)
        subst hc
        rw [strLtB_eq_of_not h1 h2]

/-- String comparison is irreflexive. -/
theorem strLt_irrefl (s : String) : strLt s s = false := strLtB_irrefl s.data

/-- String comparison is transitive. -/
theorem strLt_trans {a b c : String} (h1 : strLt a b = true)
    (h2 : strLt b c = true) : strLt a c = true :=
  strLtB_trans h1 h2

/-- Distinct strings not below one another are above: totality. -/
theorem strLt_total {s t : String} (h1 : s ≠ t) (h2 : strLt s t = false) :
    strLt t s = true := by
  by_cases h3 : strLt t s = true
  · exact h3
  · have h4 : strLt t s = false := Bool.eq_false_iff.mpr h3
    have hd : s.data = t.data := strLtB_eq_of_not h2 h4
    have hst : s = t := by
      cases s; cases t
      exact congrArg String.mk hd
    exact absurd hst h1

/-- Strictly smaller strings are distinct. -/
theorem strLt_ne {a b : String} (h : strLt a b = true) : a ≠ b := by
  intro he
  subst he
  rw [strLt_irrefl] at h
  cases h

/-- Membership in `insortNodup` adds exactly the inserted element. -/
theorem mem_insortNodup {x s : String} : ∀ {l : List String},
    (x ∈ insortNodup s l ↔ x = s ∨ x ∈ l)
  | [] => by simp [insortNodup]
  | t :: ts => by
    by_cases h1 : s = t
    · subst h1
      simp [insortNodup, List.mem_cons]
    · by_cases h2 : strLt s t = true
      · simp [insortNodup, h1, h2, List.mem_cons]
      · simp only [insortNodup, if_neg h1, if_neg h2, List.mem_cons,
          @mem_insortNodup x s ts]
        tauto

/-- Inserting into a strictly sorted list keeps it strictly sorted. -/
theorem pairwise_insortNodup {s : String} : ∀ {l : List String},
    l.Pairwise (fun a b => strLt a b = true) → (insortNodup s l).Pairwise (fun a b => strLt a b = true)
  | [], _ => by simp [insortNodup]
  | t :: ts, hp => by
    rcases List.pairwise_cons.mp hp with ⟨ht, hts⟩
    by_cases h1 : s = t
    · simpa [insortNodup, h1] using hp
    · by_cases h2 : strLt s t = true
      · simp only [insortNodup, if_neg h1, if_pos h2]
        refine List.pairwise_cons.mpr ⟨?_, hp⟩
        intro x hx
        rcases List.mem_cons.mp hx with hx | hx
        · exact hx ▸ h2
        · exact strLt_trans h2 (ht x hx)
      · simp only [insortNodup, if_neg h1, if_neg h2]
        refine List.pairwise_cons.mpr ⟨?_, pairwise_insortNodup hts⟩
        intro x hx
        rcases mem_insortNodup.mp hx with hx | hx
        · exact hx ▸ strLt_total h1 (Bool.eq_false_iff.mpr h2)
        · exact ht x hx

/-- Membership in `sortedKeys l` is membership in `l`. -/
theorem mem_sortedKeys {x : String} : ∀ {l : List String},
    (x ∈ sortedKeys l ↔ x ∈ l)
  | [] => by simp [sortedKeys]
  | a :: l => by
    simp only [sortedKeys, List.foldr_cons, List.mem_cons]
    rw [show l.foldr insortNodup [] = sortedKeys l from rfl] at *
    rw [mem_insortNodup, @mem_sortedKeys x l]

/-- The key list `sortedKeys l` is strictly increasing (hence duplicate-free). -/
theorem pairwise_sortedKeys : ∀ {l : List String},
    (sortedKeys l).Pairwise (fun a b => strLt a b = true)
  | [] => List.Pairwise.nil
  | _ :: l => pairwise_insortNodup (@pairwise_sortedKeys l)

/-- A dict hit for product `p` is a query row whose product is `p`. -/
theorem lastWithProduct_spec {rows : List RateRow} {p : String} {r : RateRow}
    (h : lastWithProduct rows p = some r) : r ∈ rows ∧ r.product = p := by
  have hm := List.mem_of_getLast?_eq_some h
  rcases List.mem_filter.mp hm with ⟨hmem, hpr⟩
  exact ⟨hmem, by simpa using hpr⟩

/-- If some query row has product `p`, the dict has an entry for `p`. -/
theorem lastWithProduct_isSome {rows : List RateRow} {p : String}
    (h : ∃ r ∈ rows, r.product = p) : (lastWithProduct rows p).isSome = true := by
  rcases h with ⟨r, hr, hp⟩
  have : r ∈ rows.filter (fun r => r.product == p) :=
    List.mem_filter.mpr ⟨hr, by simp [hp]⟩
  exact List.getLast?_isSome.mpr (List.ne_nil_of_mem this)

/-- The per-product selection succeeds whenever either dict has an entry. -/
theorem pickRow_isSome {mt : Bool} {mr br : Option RateRow}
    (h : mr.isSome = true ∨ br.isSome = true) : (pickRow mt mr br).isSome = true := by
  rcases mr with _ | r <;> rcases br with _ | b <;> cases mt <;>
    simp_all [pickRow]

/-- The selected row comes from one of the two dicts. -/
theorem pickRow_mem {mt : Bool} {mr br : Option RateRow} {r : RateRow} {s : String}
    (h : pickRow mt mr br = some (r, s)) : mr = some r ∨ br = some r := by
  rcases mr with _ | r' <;> rcases br with _ | b <;> cases mt <;>
    simp_all [pickRow]

/-- A product key in `products_seen` comes from a row of one of the queries. -/
theorem mem_productsSeen {store : List RateRow} {g : Int} {mc pc : Option String}
    {cc p : String} (hp : p ∈ productsSeen store g mc pc cc) :
    (∃ r ∈ baseRowsOf store g pc cc, r.product = p) ∨
      (∃ r ∈ modifierRowsOf store g mc pc cc, r.product = p) := by
  have := mem_sortedKeys.mp hp
  rcases List.mem_append.mp this with h | h
  · rcases List.mem_map.mp h with ⟨r, hr, hrp⟩
    exact Or.inl ⟨r, hr, hrp⟩
  · rcases List.mem_map.mp h with ⟨r, hr, hrp⟩
    exact Or.inr ⟨r, hr, hrp⟩

/-- For every product key actually seen, the selection yields a row (the
`modifier_by_product[p]` access of the source never raises). -/
theorem pickAt_isSome_of_mem_seen {store : List RateRow} {g : Int}
    {mc pc : Option String} {cc p : String}
    (hp : p ∈ productsSeen store g mc pc cc) :
    (pickAt store g mc pc cc p).isSome = true := by
  rcases mem_productsSeen hp with h | h
  · exact pickRow_isSome (Or.inr (lastWithProduct_isSome h))
  · exact pickRow_isSome (Or.inl (lastWithProduct_isSome h))

/-- The row selected for product key `p` has product `p`. -/
theorem pickAt_product {store : List RateRow} {g : Int} {mc pc : Option String}
    {cc p : String} {r : RateRow} {s : String}
    (h : pickAt store g mc pc cc p = some (r, s)) : r.product = p := by
  rcases pickRow_mem h with hm | hm
  · exact (lastWithProduct_spec hm).2
  · exact (lastWithProduct_spec hm).2

/-- A row returned by the modifier-specific query is a store row carrying the
cleaned requested code. -/
theorem mem_modifierRowsOf {store : List RateRow} {g : Int} {mc pc : Option String}
    {cc : String} {r : RateRow} (h : r ∈ modifierRowsOf store g mc pc cc) :
    r ∈ store ∧ r.code = cc := by
  rcases mc with _ | m
  · simp [modifierRowsOf] at h
  · by_cases hm0 : m = ""
    · simp [modifierRowsOf, hm0] at h
    · have h2 : r ∈ store.filter (modifierRowPred g cc m pc) := by
        simpa [modifierRowsOf, hm0] using h
      rcases List.mem_filter.mp h2 with ⟨hs, hpred⟩
      refine ⟨hs, ?_⟩
      rcases pc with _ | p
      · simp only [modifierRowPred, Bool.and_eq_true, beq_iff_eq] at hpred
        exact hpred.1.2
      · by_cases hp0 : p = ""
        · simp only [modifierRowPred, if_pos hp0, Bool.and_eq_true, beq_iff_eq] at hpred
          exact hpred.1.2
        · simp only [modifierRowPred, if_neg hp0, Bool.and_eq_true, beq_iff_eq] at hpred
          exact hpred.1.1.2

/-- A row returned by the base query is a store row carrying the cleaned
requested code. -/
theorem mem_baseRowsOf {store : List RateRow} {g : Int} {pc : Option String}
    {cc : String} {r : RateRow} (h : r ∈ baseRowsOf store g pc cc) :
    r ∈ store ∧ r.code = cc := by
  rcases List.mem_filter.mp h with ⟨hs, hpred⟩
  unfold baseRowPred at hpred
  simp only [Bool.and_eq_true, beq_iff_eq] at hpred
  exact ⟨hs, hpred.1.1.2⟩

/-- The row selected for any product key is a row of the store. -/
theorem pickAt_mem_store {store : List RateRow} {g : Int} {mc pc : Option String}
    {cc p : String} {r : RateRow} {s : String}
    (h : pickAt store g mc pc cc p = some (r, s)) : r ∈ store := by
  rcases pickRow_mem h with hm | hm
  · exact (mem_modifierRowsOf (lastWithProduct_spec hm).1).1
  · exact (mem_baseRowsOf (lastWithProduct_spec hm).1).1

/-- The row selected for any product key carries the cleaned requested code. -/
theorem pickAt_code {store : List RateRow} {g : Int} {mc pc : Option String}
    {cc p : String} {r : RateRow} {s : String}
    (h : pickAt store g mc pc cc p = some (r, s)) : r.code = cc := by
  rcases pickRow_mem h with hm | hm
  · exact (mem_modifierRowsOf (lastWithProduct_spec hm).1).2
  · exact (mem_baseRowsOf (lastWithProduct_spec hm).1).2

/-- A `filterMap` over keys on which the function always succeeds keeps the
length of the key list. -/
theorem length_filterMap_all_isSome {α β : Type} {f : α → Option β} :
    ∀ {l : List α}, (∀ a ∈ l, (f a).isSome = true) →
      (l.filterMap f).length = l.length
  | [], _ => rfl
  | a :: l, h => by
    rcases Option.isSome_iff_exists.mp (h a (List.mem_cons_self a l)) with ⟨b, hb⟩
    rw [List.filterMap_cons_some hb]
    simp only [List.length_cons]
    rw [length_filterMap_all_isSome (fun x hx => h x (List.mem_cons_of_mem a hx))]

/-- Entries built from keys avoiding `p` contain no entry for product `p`. -/
theorem entriesFilter_nil {F : String → Option (RateRow × String)} {p : String} :
    ∀ {ks : List String},
      (∀ q ∈ ks, ∀ r s, F q = some (r, s) → r.product = q) → p ∉ ks →
      ((ks.filterMap F).map (fun rt => Entry.found rt.1 rt.2)).filter
        (fun e => entryProduct e == p) = []
  | [], _, _ => rfl
  | q :: ks, hprod, hnp => by
    have hnpq : p ∉ ks := fun h => hnp (List.mem_cons_of_mem q h)
    have hq : q ≠ p := fun h => hnp (h ▸ List.mem_cons_self q ks)
    have ih := @entriesFilter_nil F p ks
      (fun x hx => hprod x (List.mem_cons_of_mem q hx)) hnpq
    cases hFq : F q with
    | none => rw [List.filterMap_cons_none hFq]; exact ih
    | some rt =>
      rcases rt with ⟨r, s⟩
      rw [List.filterMap_cons_some hFq, List.map_cons, List.filter_cons]
      have hr : r.product = q := hprod q (List.mem_cons_self q ks) r s hFq
      have : (entryProduct (Entry.found r s) == p) = false := by
        simp [entryProduct, hr, hq]
      rw [this]
      exact ih

/-- With duplicate-free keys, total selection and product-faithful rows, the
entries filtered to product `p` are exactly the one entry selected for `p`. -/
theorem entriesFilter_single {F : String → Option (RateRow × String)}
    {p : String} {r : RateRow} {s : String} :
    ∀ {ks : List String},
      (∀ q ∈ ks, ∀ r' s', F q = some (r', s') → r'.product = q) →
      (∀ q ∈ ks, (F q).isSome = true) → ks.Nodup → p ∈ ks → F p = some (r, s) →
      ((ks.filterMap F).map (fun rt => Entry.found rt.1 rt.2)).filter
        (fun e => entryProduct e == p) = [Entry.found r s]
  | [], _, _, _, hp, _ => absurd hp (List.not_mem_nil p)
  | q :: ks, hprod, hsome, hnd, hp, hFp => by
    rcases Option.isSome_iff_exists.mp (hsome q (List.mem_cons_self q ks)) with ⟨rt, hFq⟩
    rcases rt with ⟨rq, sq⟩
    rw [List.filterMap_cons_some hFq, List.map_cons, List.filter_cons]
    have hrq : rq.product = q := hprod q (List.mem_cons_self q ks) rq sq hFq
    rcases List.nodup_cons.mp hnd with ⟨hqks, hndks⟩
    by_cases hqp : q = p
    · subst hqp
      have hrs : rq = r ∧ sq = s := by
        have := hFq.symm.trans hFp
        simpa using this
      rcases hrs with ⟨hr1, hs1⟩
      subst hr1; subst hs1
      have hkeep : (entryProduct (Entry.found rq sq) == q) = true := by
        simp [entryProduct, hrq]
      rw [hkeep]
      rw [entriesFilter_nil (fun x hx => hprod x (List.mem_cons_of_mem q hx)) hqks]
      simp
    · have hpks : p ∈ ks := by
        rcases List.mem_cons.mp hp with h | h
        · exact absurd h.symm hqp
        · exact h
      have hskip : (entryProduct (Entry.found rq sq) == p) = false := by
        simp [entryProduct, hrq, hqp]
      rw [hskip]
      exact entriesFilter_single (fun x hx => hprod x (List.mem_cons_of_mem q hx))
        (fun x hx => hsome x (List.mem_cons_of_mem q hx)) hndks hpks hFp

/-- For a product key that was actually seen, the resolved entries restricted
to that product are exactly the single selected entry. -/
theorem entriesFor_eq_pick {store : List RateRow} {g : Int} {mc pc : Option String}
    {c p : String} {r : RateRow} {s : String}
    (hp : p ∈ productsSeen store g mc pc (pyStrip c))
    (hpick : pickAt store g mc pc (pyStrip c) p = some (r, s)) :
    entriesFor store g mc pc c p = [Entry.found r s] := by
  have hne : ¬(productsSeen store g mc pc (pyStrip c)).isEmpty = true := by
    rw [List.isEmpty_iff]
    exact List.ne_nil_of_mem hp
  have hnd : (productsSeen store g mc pc (pyStrip c)).Nodup :=
    List.Pairwise.imp strLt_ne pairwise_sortedKeys
  unfold entriesFor resolveCode
  rw [if_neg hne]
  exact entriesFilter_single
    (fun q _ r' s' h => pickAt_product h)
    (fun q hq => pickAt_isSome_of_mem_seen hq) hnd hp hpick

/-- Post-query precedence of the resolution loop: for every product key
found across the two dicts the queries actually produced, exactly one match
is emitted, preferring the modifier-dict entry (tagged "Modifier-specific
rate") when a truthy modifier was supplied, else the base-dict entry (tagged
by whether a modifier was requested), else the modifier-dict entry.  This is
the selection main.py applies to whatever rows its queries returned; the
full claimed precedence over STORE rows fails at the query itself when a
product filter is also supplied — see
`modifier_product_transposed_binding`. -/
theorem resolver_precedence (store : List RateRow) (g : Int) (mc pc : Option String)
    (c p : String) (hp : p ∈ productsSeen store g mc pc (pyStrip c)) :
    (∃ e, entriesFor store g mc pc c p = [e]) ∧
    (∀ r, pyTruthy mc = true → modAt store g mc pc (pyStrip c) p = some r →
      entriesFor store g mc pc c p = [Entry.found r ("Modifier-specific rate")]) ∧
    ((pyTruthy mc = false ∨ modAt store g mc pc (pyStrip c) p = none) →
      ∀ r, baseAt store g pc (pyStrip c) p = some r →
      entriesFor store g mc pc c p = [Entry.found r
        (if pyTruthy mc then "Base rate (modifier not on file)" else "Base rate (no modifier)")]) ∧
    (baseAt store g pc (pyStrip c) p = none →
      ∀ r, modAt store g mc pc (pyStrip c) p = some r →
      entriesFor store g mc pc c p = [Entry.found r ("Modifier-specific rate")]) := by
  refine ⟨?_, ?_, ?_, ?_⟩
  · rcases Option.isSome_iff_exists.mp (pickAt_isSome_of_mem_seen hp) with ⟨rt, hrt⟩
    rcases rt with ⟨r, s⟩
    exact ⟨Entry.found r s, entriesFor_eq_pick hp hrt⟩
  · intro r htr hmod
    have hpick : pickAt store g mc pc (pyStrip c) p = some (r, "Modifier-specific rate") := by
      unfold pickAt pickRow
      rw [htr, hmod]
      simp
    exact entriesFor_eq_pick hp hpick
  · intro hcase r hbase
    have hpick : pickAt store g mc pc (pyStrip c) p =
        some (r, if pyTruthy mc then "Base rate (modifier not on file)"
          else "Base rate (no modifier)") := by
      unfold pickAt pickRow
      rcases hcase with hmf | hmn
      · rw [hmf, hbase]; simp
      · rw [hmn, hbase]; simp
    exact entriesFor_eq_pick hp hpick
  · intro hbase r hmod
    have hpick : pickAt store g mc pc (pyStrip c) p = some (r, "Modifier-specific rate") := by
      unfold pickAt pickRow
      rw [hbase, hmod]
      cases pyTruthy mc <;> simp
    exact entriesFor_eq_pick hp hpick

/-- Witness for `resolver_precedence` at a concrete store: with a base row
and a modifier "25" row on file, a lookup supplying the modifier resolves to
the modifier-specific row. -/
theorem resolver_precedence_witness :
    entriesFor [wRowBase, wRowMod] 75001 (some "25") none ("99213") ("PPO") =
      [Entry.found wRowMod ("Modifier-specific rate")] :=
  (resolver_precedence [wRowBase, wRowMod] 75001 (some "25") none ("99213") ("PPO")
      (by decide)).2.1 wRowMod (by decide) (by decide)

/-- Claim C1 exhibit (parameter transposition bug).  The modifier-specific
query's SQL places the product clause after the modifier placeholder, but
the code appends the modifier value LAST to a parameter list that already
ends in the product filter, so with both a modifier and a product filter the
executed query binds modifier to the product filter and product to the
modifier.  Consequently, at geozip 75001, code "99213", modifier "25",
product "PPO": the stored modifier-specific row for exactly that modifier
and product is missed and the base row is served tagged
"Base rate (modifier not on file)" (first conjunct), although the matching
modifier row is on file (second conjunct); a stored row with the two texts
swapped — modifier "PPO", product "25" — IS served tagged
"Modifier-specific rate" (third conjunct); and with no product filter the
parameters line up, so the claimed precedence does hold there (fourth
conjunct). -/
theorem modifier_product_transposed_binding :
    (lookup [wRowBase, wRowMod] 75001 ["99213"] (some "25") (some "PPO")).1 =
      [Entry.found wRowBase ("Base rate (modifier not on file)")] ∧
    (wRowMod ∈ [wRowBase, wRowMod] ∧ wRowMod.geozip = 75001 ∧
      wRowMod.code = "99213" ∧ wRowMod.modifier = some ("25") ∧
      wRowMod.product = "PPO") ∧
    (lookup [wRowSwap] 75001 ["99213"] (some "25") (some "PPO")).1 =
      [Entry.found wRowSwap ("Modifier-specific rate")] ∧
    (lookup [wRowBase, wRowMod] 75001 ["99213"] (some "25") none).1 =
      [Entry.found wRowMod ("Modifier-specific rate")] := by
  refine ⟨?_, ?_, ?_, ?_⟩ <;> decide

/-- When no store row matches either query, both dicts are empty, so the set
of product keys seen is empty. -/
theorem productsSeen_nil {store : List RateRow} {g : Int} {mc pc : Option String}
    {cc : String} (h : ∀ r ∈ store, matchesQueries g mc pc cc r = false) :
    productsSeen store g mc pc cc = [] := by
  have hb : baseRowsOf store g pc cc = [] := by
    unfold baseRowsOf
    rw [List.filter_eq_nil_iff]
    intro r hr
    have := h r hr
    unfold matchesQueries at this
    simp only [Bool.or_eq_false_iff] at this
    simp [this.1]
  have hm : modifierRowsOf store g mc pc cc = [] := by
    rcases mc with _ | m
    · rfl
    · by_cases hm0 : m = ""
      · simp [modifierRowsOf, hm0]
      · simp only [modifierRowsOf, if_neg hm0]
        rw [List.filter_eq_nil_iff]
        intro r hr
        have hq := h r hr
        simp only [matchesQueries, Bool.or_eq_false_iff, if_neg hm0] at hq
        simp [hq.2]
  simp [productsSeen, hb, hm, sortedKeys]

/-- A code with no matching row resolves to exactly one placeholder entry and
one failed-lookup log record. -/
theorem resolveCode_no_match {store : List RateRow} {g : Int} {mc pc : Option String}
    {c : String} (h : ∀ r ∈ store, matchesQueries g mc pc (pyStrip c) r = false) :
    resolveCode store g mc pc c =
      ([Entry.placeholder (pyStrip c) (pyOrEmpty pc) "" ("No match found")
          "" "" "" "" "" "" "" ""],
       [⟨g, (pyStrip c), mc, pc, "No match found", 0⟩]) := by
  have hseen := @productsSeen_nil store g mc pc (pyStrip c) h
  unfold resolveCode
  simp [hseen]

/-- Every resolved code contributes at least one response entry. -/
theorem resolveCode_length_pos (store : List RateRow) (g : Int)
    (mc pc : Option String) (c : String) :
    1 ≤ (resolveCode store g mc pc c).1.length := by
  unfold resolveCode
  by_cases h : (productsSeen store g mc pc (pyStrip c)).isEmpty = true
  · simp [h]
  · simp only [if_neg h, List.length_map]
    rw [length_filterMap_all_isSome (fun p hp => pickAt_isSome_of_mem_seen hp)]
    have hne : productsSeen store g mc pc (pyStrip c) ≠ [] := by
      intro hcontra
      exact h (by simp [hcontra])
    exact List.length_pos.mpr hne

/-- A flatten of per-code outputs, each nonempty, has at least one element
per code. -/
theorem le_length_flatten {f : String → List Entry} :
    ∀ (codes : List String), (∀ c, 1 ≤ (f c).length) →
      codes.length ≤ ((codes.map f).flatten).length
  | [], _ => Nat.le_refl 0
  | c :: cs, h => by
    simp only [List.map_cons, List.flatten_cons, List.length_append, List.length_cons]
    have h1 := le_length_flatten cs h
    have h2 := h c
    omega

/-- Claim C2.  Every lookup response has at least one entry per requested
code; a code with no matching store row contributes exactly the one
placeholder entry carrying the trimmed code, the product filter or the empty
string, an empty description, match type "No match found" and empty
percentile columns; and the request finishes normally (the handler returns
the response, never a request-level failure, when the infrastructure does
not fail). -/
theorem lookup_response_covers_codes (store : List RateRow) (g : Int)
    (codes : List String) (modifier product : Option String) (_hne : codes ≠ []) :
    codes.length ≤ (lookup store g codes modifier product).1.length ∧
    (∀ c ∈ codes,
      (∀ r ∈ store,
        matchesQueries g (pyCleanOpt modifier) (pyCleanOpt product) (pyStrip c) r = false) →
      (resolveCode store g (pyCleanOpt modifier) (pyCleanOpt product) c).1 =
        [Entry.placeholder (pyStrip c) (pyOrEmpty (pyCleanOpt product)) ""
          ("No match found") "" "" "" "" "" "" "" ""]) ∧
    (lookupHandler store g codes modifier product true true).outcome =
      Outcome.ok (lookup store g codes modifier product).1 := by
  refine ⟨?_, ?_, rfl⟩
  · exact le_length_flatten codes
      (fun c => resolveCode_length_pos store g (pyCleanOpt modifier) (pyCleanOpt product) c)
  · intro c _ h
    rw [resolveCode_no_match h]

/-- Witness for `lookup_response_covers_codes` on an empty store: the single
requested code yields the single placeholder. -/
theorem lookup_response_covers_codes_witness :
    (["99214"] : List String).length ≤ (lookup [wRowBase] 75001 ["99214"] none none).1.length ∧
    (∀ c ∈ (["99214"] : List String),
      (∀ r ∈ [wRowBase],
        matchesQueries 75001 (pyCleanOpt none) (pyCleanOpt none) (pyStrip c) r = false) →
      (resolveCode [wRowBase] 75001 (pyCleanOpt none) (pyCleanOpt none) c).1 =
        [Entry.placeholder (pyStrip c) (pyOrEmpty (pyCleanOpt none)) ""
          ("No match found") "" "" "" "" "" "" "" ""]) ∧
    (lookupHandler [wRowBase] 75001 ["99214"] none none true true).outcome =
      Outcome.ok (lookup [wRowBase] 75001 ["99214"] none none).1 :=
  lookup_response_covers_codes [wRowBase] 75001 ["99214"] none none (by decide)

/-- The products of the selected rows form a sublist of the key list. -/
theorem filterMap_products_sublist {F : String → Option (RateRow × String)} :
    ∀ {ks : List String}, (∀ q ∈ ks, ∀ r s, F q = some (r, s) → r.product = q) →
      ((ks.filterMap F).map (fun rt => rt.1.product)).Sublist ks
  | [], _ => List.nil_sublist []
  | q :: ks, hprod => by
    have ih := @filterMap_products_sublist F ks
      (fun x hx => hprod x (List.mem_cons_of_mem q hx))
    cases hFq : F q with
    | none =>
      rw [List.filterMap_cons_none hFq]
      exact List.Sublist.cons q ih
    | some rt =>
      rcases rt with ⟨r, s⟩
      rw [List.filterMap_cons_some hFq, List.map_cons]
      have hr : r.product = q := hprod q (List.mem_cons_self q ks) r s hFq
      rw [hr]
      exact List.Sublist.cons₂ q ih

/-- Within one resolved code, entries appear in strictly increasing product
order (code-point lexicographic, empty product first). -/
theorem resolveCode_products_sorted (store : List RateRow) (g : Int)
    (mc pc : Option String) (c : String) :
    ((resolveCode store g mc pc c).1.map entryProduct).Pairwise (fun a b => strLt a b = true) := by
  unfold resolveCode
  by_cases h : (productsSeen store g mc pc (pyStrip c)).isEmpty = true
  · simp [h]
  · simp only [if_neg h, List.map_map]
    exact List.Pairwise.sublist
      (filterMap_products_sublist (fun q _ r s hq => pickAt_product hq))
      pairwise_sortedKeys

/-- Every entry of one resolved code carries that code (trimmed). -/
theorem resolveCode_entry_code (store : List RateRow) (g : Int)
    (mc pc : Option String) (c : String) :
    ∀ e ∈ (resolveCode store g mc pc c).1, entryCode e = (pyStrip c) := by
  unfold resolveCode
  by_cases h : (productsSeen store g mc pc (pyStrip c)).isEmpty = true
  · simp only [if_pos h, List.mem_singleton]
    rintro e rfl
    rfl
  · simp only [if_neg h]
    intro e he
    rcases List.mem_map.mp he with ⟨rt, hrt, rfl⟩
    rcases List.mem_filterMap.mp hrt with ⟨p, _, hpick⟩
    rcases rt with ⟨r, s⟩
    exact pickAt_code hpick

/-- Claim C3.  The response is the concatenation of the per-code outputs in
the order the codes were supplied; within one code the entries are sorted
strictly by product text (so the empty product, and "HMO" before "PPO",
come first); and every entry of a per-code block carries that trimmed code,
so the response is grouped by code in request order. -/
theorem lookup_ordering (store : List RateRow) (g : Int) (codes : List String)
    (modifier product : Option String) :
    (lookup store g codes modifier product).1 =
      (codes.map (fun c =>
        (resolveCode store g (pyCleanOpt modifier) (pyCleanOpt product) c).1)).flatten ∧
    (∀ c ∈ codes,
      ((resolveCode store g (pyCleanOpt modifier) (pyCleanOpt product) c).1.map
        entryProduct).Pairwise (fun a b => strLt a b = true)) ∧
    (∀ c ∈ codes,
      ∀ e ∈ (resolveCode store g (pyCleanOpt modifier) (pyCleanOpt product) c).1,
        entryCode e = (pyStrip c)) :=
  ⟨rfl,
   fun c _ => resolveCode_products_sorted store g (pyCleanOpt modifier) (pyCleanOpt product) c,
   fun c _ => resolveCode_entry_code store g (pyCleanOpt modifier) (pyCleanOpt product) c⟩

/-- Witness for `lookup_ordering`: with products "PPO" and "HMO" on file for
one code and no product filter, two matches come back, "HMO" first. -/
theorem lookup_ordering_witness :
    (lookup [wRowBase, wRowHMO] 75001 ["99213"] none none).1 =
      ((["99213"] : List String).map (fun c =>
        (resolveCode [wRowBase, wRowHMO] 75001 (pyCleanOpt none) (pyCleanOpt none) c).1)).flatten ∧
    ((lookup [wRowBase, wRowHMO] 75001 ["99213"] none none).1 =
      [Entry.found wRowHMO ("Base rate (no modifier)"),
       Entry.found wRowBase ("Base rate (no modifier)")]) ∧
    ((resolveCode [wRowBase, wRowHMO] 75001 (pyCleanOpt none) (pyCleanOpt none) "99213").1.map
        entryProduct).Pairwise (fun a b => strLt a b = true) :=
  ⟨(lookup_ordering [wRowBase, wRowHMO] 75001 ["99213"] none none).1,
   by decide,
   (lookup_ordering [wRowBase, wRowHMO] 75001 ["99213"] none none).2.1 "99213"
     (by decide)⟩

/-- Entries and logs built from the same picks correspond pairwise: success 1
and the same match type. -/
theorem forall₂_picks {g0 : Int} {cc : String} {mc0 : Option String} :
    ∀ (l : List (RateRow × String)),
      List.Forall₂
        (fun e le => le.success = entrySuccess e ∧ le.match_type = entryMatchType e)
        (l.map (fun rt => Entry.found rt.1 rt.2))
        (l.map (fun rt => (⟨g0, cc, mc0, some rt.1.product, rt.2, 1⟩ : LogEntry)))
  | [] => List.Forall₂.nil
  | _ :: l => List.Forall₂.cons ⟨rfl, rfl⟩ (forall₂_picks l)

/-- One resolved code appends exactly one log record per response entry, with
the matching success flag and match type. -/
theorem forall₂_resolveCode (store : List RateRow) (g : Int)
    (mc pc : Option String) (c : String) :
    List.Forall₂
      (fun e le => le.success = entrySuccess e ∧ le.match_type = entryMatchType e)
      (resolveCode store g mc pc c).1 (resolveCode store g mc pc c).2 := by
  unfold resolveCode
  by_cases h : (productsSeen store g mc pc (pyStrip c)).isEmpty = true
  · simp only [if_pos h]
    exact List.Forall₂.cons ⟨rfl, rfl⟩ List.Forall₂.nil
  · simp only [if_neg h]
    exact forall₂_picks _

/-- Claim C4.  Every per-(code, product) resolution attempt — match or
no-match — appends exactly one audit-log record, so the log list written by a
request has the same length as the response, and position by position the
success flag is 1 exactly for a real match (0 for a placeholder) and the
logged match type equals the entry's match type. -/
theorem lookup_audit_log (store : List RateRow) (g : Int) (codes : List String)
    (modifier product : Option String) :
    (lookup store g codes modifier product).2.length =
      (lookup store g codes modifier product).1.length ∧
    List.Forall₂
      (fun e le => le.success = entrySuccess e ∧ le.match_type = entryMatchType e)
      (lookup store g codes modifier product).1
      (lookup store g codes modifier product).2 := by
  have hall : ∀ cs : List String,
      List.Forall₂
        (fun e le => le.success = entrySuccess e ∧ le.match_type = entryMatchType e)
        ((cs.map (fun c =>
          (resolveCode store g (pyCleanOpt modifier) (pyCleanOpt product) c).1)).flatten)
        ((cs.map (fun c =>
          (resolveCode store g (pyCleanOpt modifier) (pyCleanOpt product) c).2)).flatten) := by
    intro cs
    induction cs with
    | nil => exact List.Forall₂.nil
    | cons c cs ih =>
      simp only [List.map_cons, List.flatten_cons]
      exact List.rel_append
        (forall₂_resolveCode store g (pyCleanOpt modifier) (pyCleanOpt product) c) ih
  exact ⟨(hall codes).length_eq.symm, hall codes⟩

/-- Every real (non-placeholder) entry of one resolved code carries a row of
the store, unchanged. -/
theorem resolveCode_found_mem (store : List RateRow) (g : Int)
    (mc pc : Option String) (c : String) :
    ∀ e ∈ (resolveCode store g mc pc c).1, ∀ r mt, e = Entry.found r mt → r ∈ store := by
  unfold resolveCode
  by_cases h : (productsSeen store g mc pc (pyStrip c)).isEmpty = true
  · simp only [if_pos h, List.mem_singleton]
    rintro e rfl r mt hcontra
    simp at hcontra
  · simp only [if_neg h]
    intro e he r mt heq
    rcases List.mem_map.mp he with ⟨rt, hrt, rfl⟩
    rcases List.mem_filterMap.mp hrt with ⟨p, _, hpick⟩
    rcases rt with ⟨r0, s0⟩
    injection heq with h1 h2
    subst h1
    exact pickAt_mem_store hpick

/-- Claim C10.  Every real match in a lookup response is exactly a stored
row — all fourteen stored columns copied unchanged — with only the
`match_type` field added (the `Entry.found` constructor carries the stored
row whole, so equality with a store member states that no field was altered,
recomputed or omitted). -/
theorem lookup_frame_effect (store : List RateRow) (g : Int) (codes : List String)
    (modifier product : Option String) :
    ∀ e ∈ (lookup store g codes modifier product).1, ∀ r mt,
      e = Entry.found r mt → r ∈ store := by
  intro e he r mt heq
  unfold lookup at he
  rcases List.mem_flatten.mp he with ⟨l, hl, hel⟩
  rcases List.mem_map.mp hl with ⟨c, _, rfl⟩
  exact resolveCode_found_mem store g (pyCleanOpt modifier) (pyCleanOpt product) c
    e hel r mt heq

/-- Witness for `lookup_frame_effect`: the match returned for the concrete
store is the stored base row itself. -/
theorem lookup_frame_effect_witness : wRowBase ∈ [wRowBase] :=
  lookup_frame_effect [wRowBase] 75001 ["99213"] none none
    (Entry.found wRowBase ("Base rate (no modifier)")) (by decide)
    wRowBase ("Base rate (no modifier)") rfl

/-- A column of `setCol f n cs` is the assigned column or an untouched
column of `f` whose name is not `n`. -/
theorem mem_setCol_cols {f : Frame} {n : String} {cs : List Cell}
    {col : String × List Cell} (h : col ∈ (f.setCol n cs).cols) :
    col = (n, cs) ∨ (col ∈ f.cols ∧ col.1 ≠ n) := by
  unfold Frame.setCol at h
  by_cases hany : f.cols.any (fun c => c.1 == n) = true
  · rw [if_pos hany] at h
    rcases List.mem_map.mp h with ⟨c, hc, hceq⟩
    by_cases he : (c.1 == n) = true
    · rw [if_pos he] at hceq
      exact Or.inl hceq.symm
    · rw [if_neg he] at hceq
      subst hceq
      exact Or.inr ⟨hc, fun h1 => he (beq_iff_eq.mpr h1)⟩
  · rw [if_neg hany] at h
    rcases List.mem_append.mp h with h | h
    · refine Or.inr ⟨h, fun h1 => ?_⟩
      exact hany (List.any_eq_true.mpr ⟨col, h, beq_iff_eq.mpr h1⟩)
    · exact Or.inl (List.mem_singleton.mp h)

/-- Auxiliary: `find?` on the replaced column list hits the assignment. -/
theorem find?_setCol_aux {n : String} {cs : List Cell} :
    ∀ {l : List (String × List Cell)}, l.any (fun c => c.1 == n) = true →
      (l.map (fun c => if c.1 == n then (n, cs) else c)).find? (fun c => c.1 == n) =
        some (n, cs)
  | [], h => by cases h
  | c :: l, h => by
    by_cases he : (c.1 == n) = true
    · rw [List.map_cons, if_pos he, List.find?_cons]
      have h1 : (((n, cs) : String × List Cell).1 == n) = true := by simp
      rw [h1]
    · rw [List.map_cons, if_neg he, List.find?_cons]
      rw [Bool.eq_false_iff.mpr he]
      apply find?_setCol_aux
      simp only [List.any_cons, Bool.or_eq_true] at h
      rcases h with h | h
      · exact absurd h he
      · exact h

/-- Auxiliary: `find?` for a different name is unchanged by replacement. -/
theorem find?_setCol_ne_aux {n m : String} {cs : List Cell} (hne : m ≠ n) :
    ∀ (l : List (String × List Cell)),
      (l.map (fun c => if c.1 == n then (n, cs) else c)).find? (fun c => c.1 == m) =
        l.find? (fun c => c.1 == m)
  | [] => rfl
  | c :: l => by
    by_cases he : (c.1 == n) = true
    · have hc1 : c.1 = n := beq_iff_eq.mp he
      have h1 : (((n, cs) : String × List Cell).1 == m) = false := by
        simp only [beq_eq_false_iff_ne]
        exact fun h => hne h.symm
      have h2 : (c.1 == m) = false := by
        simp only [beq_eq_false_iff_ne, hc1]
        exact fun h => hne h.symm
      rw [List.map_cons, if_pos he, List.find?_cons, List.find?_cons, h1, h2]
      exact find?_setCol_ne_aux hne l
    · rw [List.map_cons, if_neg he, List.find?_cons, List.find?_cons]
      cases hm : (c.1 == m) with
      | true => rfl
      | false => exact find?_setCol_ne_aux hne l

/-- Reading back the column just assigned returns the assigned cells. -/
theorem getCol_setCol_self {f : Frame} {n : String} {cs : List Cell} :
    (f.setCol n cs).getCol n = some cs := by
  unfold Frame.setCol Frame.getCol
  by_cases hany : f.cols.any (fun c => c.1 == n) = true
  · rw [if_pos hany]
    rw [show (Frame.mk (f.cols.map (fun c => if c.1 == n then (n, cs) else c))).cols =
      f.cols.map (fun c => if c.1 == n then (n, cs) else c) from rfl]
    rw [find?_setCol_aux hany]
    rfl
  · rw [if_neg hany]
    rw [show (Frame.mk (f.cols ++ [(n, cs)])).cols = f.cols ++ [(n, cs)] from rfl]
    rw [List.find?_append]
    have h1 : f.cols.find? (fun c => c.1 == n) = none := by
      rw [List.find?_eq_none]
      intro x hx hpx
      exact hany (List.any_eq_true.mpr ⟨x, hx, hpx⟩)
    rw [h1]
    rw [show List.find? (fun c => c.1 == n) [(n, cs)] = some (n, cs) from by
      rw [List.find?_cons]
      have h2 : (((n, cs) : String × List Cell).1 == n) = true := by simp
      rw [h2]]
    rfl

/-- Assigning one column leaves every other column read unchanged. -/
theorem getCol_setCol_ne {f : Frame} {n m : String} {cs : List Cell} (hne : m ≠ n) :
    (f.setCol n cs).getCol m = f.getCol m := by
  unfold Frame.setCol Frame.getCol
  by_cases hany : f.cols.any (fun c => c.1 == n) = true
  · rw [if_pos hany]
    rw [show (Frame.mk (f.cols.map (fun c => if c.1 == n then (n, cs) else c))).cols =
      f.cols.map (fun c => if c.1 == n then (n, cs) else c) from rfl]
    rw [find?_setCol_ne_aux hne]
  · rw [if_neg hany]
    rw [show (Frame.mk (f.cols ++ [(n, cs)])).cols = f.cols ++ [(n, cs)] from rfl]
    rw [List.find?_append]
    have h2 : List.find? (fun c => c.1 == m) [(n, cs)] = none := by
      rw [List.find?_eq_none]
      intro x hx hpx
      rcases List.mem_singleton.mp hx with rfl
      exact hne (beq_iff_eq.mp hpx).symm
    rw [h2, Option.or_none]

/-- Auxiliary: `find?` for a name different from both rename endpoints is
unchanged by a rename. -/
theorem find?_rename_aux {a b m : String} (ha : m ≠ a) (hb : m ≠ b) :
    ∀ (l : List (String × List Cell)),
      (l.map (fun c => if c.1 == a then (b, c.2) else c)).find? (fun c => c.1 == m) =
        l.find? (fun c => c.1 == m)
  | [] => rfl
  | c :: l => by
    by_cases he : (c.1 == a) = true
    · have hc1 : c.1 = a := beq_iff_eq.mp he
      have h1 : (((b, c.2) : String × List Cell).1 == m) = false := by
        simp only [beq_eq_false_iff_ne]
        exact fun h => hb h.symm
      have h2 : (c.1 == m) = false := by
        simp only [beq_eq_false_iff_ne, hc1]
        exact fun h => ha h.symm
      rw [List.map_cons, if_pos he, List.find?_cons, List.find?_cons, h1, h2]
      exact find?_rename_aux ha hb l
    · rw [List.map_cons, if_neg he, List.find?_cons, List.find?_cons]
      cases hm : (c.1 == m) with
      | true => rfl
      | false => exact find?_rename_aux ha hb l

/-- A rename leaves columns with other names readable unchanged. -/
theorem getCol_renameCol_ne {f : Frame} {a b m : String} (ha : m ≠ a) (hb : m ≠ b) :
    (f.renameCol a b).getCol m = f.getCol m := by
  unfold Frame.renameCol Frame.getCol
  rw [show (Frame.mk (f.cols.map (fun c => if c.1 == a then (b, c.2) else c))).cols =
    f.cols.map (fun c => if c.1 == a then (b, c.2) else c) from rfl]
  rw [find?_rename_aux ha hb]

/-- A cell property of all columns named `m` survives assigning a column
with a different name. -/
theorem cols_setCol_pres {f : Frame} {n m : String} {cs : List Cell}
    {P : Cell → Prop} (hne : m ≠ n)
    (hf : ∀ col ∈ f.cols, col.1 = m → ∀ cell ∈ col.2, P cell) :
    ∀ col ∈ (f.setCol n cs).cols, col.1 = m → ∀ cell ∈ col.2, P cell := by
  intro col hcol hm cell hcell
  rcases mem_setCol_cols hcol with h | ⟨hmem, _⟩
  · rw [h] at hm
    exact absurd hm.symm hne
  · exact hf col hmem hm cell hcell

/-- A cell property of all columns named `m` survives renaming, as long as
the new name is not `m`. -/
theorem cols_renameCol_pres {f : Frame} {a b m : String} {P : Cell → Prop}
    (hb : m ≠ b)
    (hf : ∀ col ∈ f.cols, col.1 = m → ∀ cell ∈ col.2, P cell) :
    ∀ col ∈ (f.renameCol a b).cols, col.1 = m → ∀ cell ∈ col.2, P cell := by
  intro col hcol hm cell hcell
  unfold Frame.renameCol at hcol
  rcases List.mem_map.mp hcol with ⟨c, hc, hceq⟩
  by_cases he : (c.1 == a) = true
  · rw [if_pos he] at hceq
    rw [← hceq] at hm
    exact absurd hm.symm hb
  · rw [if_neg he] at hceq
    subst hceq
    exact hf c hc hm cell hcell

/-- Cells surviving the row mask were cells of the original column. -/
theorem mem_applyMask {mask : List Bool} {cs : List Cell} {cell : Cell}
    (h : cell ∈ applyMask mask cs) : cell ∈ cs := by
  unfold applyMask at h
  rcases List.mem_map.mp h with ⟨bc, hbc, rfl⟩
  exact (List.of_mem_zip (List.mem_filter.mp hbc).1).2

/-- A cell property of all columns named `m` survives the row mask. -/
theorem cols_mask_pres {f : Frame} {mask : List Bool} {m : String}
    {P : Cell → Prop}
    (hf : ∀ col ∈ f.cols, col.1 = m → ∀ cell ∈ col.2, P cell) :
    ∀ col ∈ (Frame.mk (f.cols.map (fun c => (c.1, applyMask mask c.2)))).cols,
      col.1 = m → ∀ cell ∈ col.2, P cell := by
  intro col hcol hm cell hcell
  rcases List.mem_map.mp hcol with ⟨c, hc, hceq⟩
  subst hceq
  exact hf c hc hm cell (mem_applyMask hcell)

/-- The modifier normalizer only emits null or a value that is none of the
four mapped literals. -/
theorem modifierNorm_good (c : Cell) :
    modifierNorm c = Cell.null ∨
      ∃ s, modifierNorm c = Cell.str s ∧
        s ≠ "" ∧ s ≠ "nan" ∧ s ≠ "NaN" ∧ s ≠ "None" := by
  unfold modifierNorm
  by_cases h : pyStrip (cellToStr c) = "" ∨ pyStrip (cellToStr c) = "nan" ∨
      pyStrip (cellToStr c) = "NaN" ∨ pyStrip (cellToStr c) = "None"
  · exact Or.inl (if_pos h)
  · rw [if_neg h]
    push_neg at h
    exact Or.inr ⟨pyStrip (cellToStr c), rfl, h.1, h.2.1, h.2.2.1, h.2.2.2⟩

/-- After `normalize_modifier`, every cell of every column named "modifier"
is null or a genuine value. -/
theorem norm_modifier_cols_good (f : Frame) :
    ∀ col ∈ (normalize_modifier f).cols, col.1 = "modifier" →
      ∀ cell ∈ col.2,
        cell = Cell.null ∨
          ∃ s, cell = Cell.str s ∧
            s ≠ "" ∧ s ≠ "nan" ∧ s ≠ "NaN" ∧ s ≠ "None" := by
  intro col hcol hm cell hcell
  unfold normalize_modifier at hcol
  by_cases h : f.colNames.contains ("modifier") = true
  · rw [if_pos h] at hcol
    rcases mem_setCol_cols hcol with hc | ⟨_, hne⟩
    · rw [hc] at hcell
      rcases List.mem_map.mp hcell with ⟨c0, _, rfl⟩
      exact modifierNorm_good c0
    · exact absurd hm hne
  · rw [if_neg h] at hcol
    rcases mem_setCol_cols hcol with hc | ⟨_, hne⟩
    · rw [hc] at hcell
      exact Or.inl (List.eq_of_mem_replicate hcell)
    · exact absurd hm hne

/-- In the fully normalized frame, every cell of every column named
"modifier" is null or a genuine value. -/
theorem pipeline_modifier_cols_good (f1 : Frame) (name : String) :
    ∀ col ∈ (pipelineAfterValidate name f1).cols, col.1 = "modifier" →
      ∀ cell ∈ col.2,
        cell = Cell.null ∨
          ∃ s, cell = Cell.str s ∧
            s ≠ "" ∧ s ≠ "nan" ∧ s ≠ "NaN" ∧ s ≠ "None" := by
  unfold pipelineAfterValidate tagSourceFile normalize_product
  exact cols_setCol_pres (by decide)
    (cols_setCol_pres (by decide) (norm_modifier_cols_good _))

/-- After `normalize_code`, every cell of every column named "code" is the
normalization of some source text. -/
theorem norm_code_cols_good (f : Frame) :
    ∀ col ∈ (normalize_code f).cols, col.1 = "code" →
      ∀ cell ∈ col.2, ∃ s, cell = Cell.str (codeNorm s) := by
  intro col hcol hm cell hcell
  unfold normalize_code at hcol
  rcases mem_setCol_cols hcol with hc | ⟨_, hne⟩
  · rw [hc] at hcell
    rcases List.mem_map.mp hcell with ⟨c0, _, rfl⟩
    exact ⟨cellToStr c0, rfl⟩
  · exact absurd hm hne

/-- In the fully normalized frame, every cell of every column named "code"
is the normalization of some source text. -/
theorem pipeline_code_cols_good (f1 : Frame) (name : String) :
    ∀ col ∈ (pipelineAfterValidate name f1).cols, col.1 = "code" →
      ∀ cell ∈ col.2, ∃ s, cell = Cell.str (codeNorm s) := by
  have hnext : ∀ col ∈ (normalize_geozip (normalize_code (normalize_description f1))).cols,
      col.1 = "code" → ∀ cell ∈ col.2, ∃ s, cell = Cell.str (codeNorm s) := by
    unfold normalize_geozip
    exact cols_setCol_pres (by decide) (cols_mask_pres (norm_code_cols_good _))
  unfold pipelineAfterValidate tagSourceFile normalize_product normalize_modifier
  by_cases h : (normalize_geozip (normalize_code
      (normalize_description f1))).colNames.contains ("modifier") = true
  · rw [if_pos h]
    exact cols_setCol_pres (by decide)
      (cols_setCol_pres (by decide) (cols_setCol_pres (by decide) hnext))
  · rw [if_neg h]
    exact cols_setCol_pres (by decide)
      (cols_setCol_pres (by decide) (cols_setCol_pres (by decide) hnext))

/-- Every (name, cell) pair of an extracted row comes from a column of that
name: the cell is one of the column's cells, or the padding null of a ragged
frame. -/
theorem mem_toRows {f : Frame} {row : Row} (h : row ∈ f.toRows) :
    ∀ n cell, (n, cell) ∈ row →
      ∃ col ∈ f.cols, col.1 = n ∧ (cell ∈ col.2 ∨ cell = Cell.null) := by
  intro n cell hnc
  unfold Frame.toRows at h
  rcases List.mem_map.mp h with ⟨i, _, rfl⟩
  rcases List.mem_map.mp hnc with ⟨c, hc, hceq⟩
  have h1 : c.1 = n := congrArg Prod.fst hceq
  have h2 : c.2.getD i Cell.null = cell := congrArg Prod.snd hceq
  refine ⟨c, hc, h1, ?_⟩
  rw [List.getD_eq_getElem?_getD] at h2
  cases hg : c.2[i]? with
  | some c0 =>
    rw [hg] at h2
    simp only [Option.getD_some] at h2
    exact Or.inl (h2 ▸ List.getElem?_mem hg)
  | none =>
    rw [hg] at h2
    simp only [Option.getD_none] at h2
    exact Or.inr h2.symm

/-- Every row present after the ingestion loop was already loaded or comes
from one of the processed files. -/
theorem buildGo_mem : ∀ {files : List (String × Frame)} {t : Table} {row : Row},
    row ∈ (buildGo t files).1 →
    row ∈ t ∨ ∃ name fr, (name, fr) ∈ files ∧ row ∈ fileRows name fr
  | [], _, _, h => Or.inl h
  | (name, fr) :: rest, t, row, h => by
    unfold buildGo at h
    cases hv : validate_required (normalize_columns fr) name with
    | error e =>
      rw [hv] at h
      exact Or.inl h
    | ok u =>
      rw [hv] at h
      rcases buildGo_mem h with h1 | ⟨n2, f2, hmem, hrow⟩
      · rcases List.mem_append.mp h1 with h2 | h2
        · exact Or.inl h2
        · exact Or.inr ⟨name, fr, List.mem_cons_self _ _, h2⟩
      · exact Or.inr ⟨n2, f2, List.mem_cons_of_mem _ hmem, hrow⟩

/-- The code normalizer removes exactly one trailing ".0": the result can
only end in ".0" when the stripped source text ended in ".0.0". -/
theorem codeNorm_strips_one (s : String)
    (h : endsDotZeroZero (pyStrip s) = false) : endsDotZero (codeNorm s) = false := by
  have hdata : (codeNorm s).data.reverse =
      stripTrailingDotZero ((pyStrip s).data.reverse) := by
    simp [codeNorm, List.reverse_reverse]
  unfold endsDotZero
  rw [hdata]
  unfold endsDotZeroZero at h
  rcases hshape : (pyStrip s).data.reverse with _ | ⟨c1, _ | ⟨c2, rest⟩⟩
  · rfl
  · rfl
  · rw [hshape] at h
    simp only [stripTrailingDotZero]
    by_cases hc : c1 = '0' ∧ c2 = '.'
    · rw [if_pos hc]
      rcases rest with _ | ⟨c3, _ | ⟨c4, rest2⟩⟩
      · rfl
      · rfl
      · simp only [decide_eq_false_iff_not] at h ⊢
        intro hcontra
        exact h ⟨hc.1, hc.2, hcontra.1, hcontra.2⟩
    · rw [if_neg hc]
      simp only [decide_eq_false_iff_not]
      exact hc

/-- Counterexample to claim C5 as stated: the source code text "1.0.0"
(trimmed) is loaded as "1.0", which still ends in the literal characters
".0" — the regex strips only one trailing artifact. -/
theorem code_dotzero_counterexample :
    ∃ row ∈ (build_database [] [(("fh.xlsx" : String), wFrameDotZero)]).1,
      ("code", Cell.str ("1.0")) ∈ row ∧ endsDotZero ("1.0") = true := by
  refine ⟨[("geozip", Cell.intv 1), ("code", Cell.str ("1.0")),
    ("product", Cell.str ("P")), ("description", Cell.str ""),
    ("modifier", Cell.null), ("source_file", Cell.str ("fh.xlsx"))],
    ?_, ?_, ?_⟩
  · decide
  · decide
  · decide

/-- Claim C5, amended.  For every row a non-trivial build loads: the
modifier cell is never the literal string "", "nan", "NaN" or "None" (it is
null or a genuine stripped value); every code cell is `codeNorm` of some
source text; and `codeNorm` output only ends in ".0" when the stripped
source text ended in ".0.0" (exactly one trailing artifact is removed). -/
theorem normalizer_invariants (prior : Table) (files : List (String × Frame))
    (hne : files ≠ []) :
    (∀ row ∈ (build_database prior files).1, ∀ cell,
      (("modifier", cell) ∈ row →
        cell ≠ Cell.str "" ∧ cell ≠ Cell.str ("nan") ∧
          cell ≠ Cell.str ("NaN") ∧ cell ≠ Cell.str ("None")) ∧
      (("code", cell) ∈ row →
        cell = Cell.null ∨ ∃ s, cell = Cell.str (codeNorm s))) ∧
    (∀ s : String, endsDotZeroZero (pyStrip s) = false →
      endsDotZero (codeNorm s) = false) := by
  refine ⟨?_, codeNorm_strips_one⟩
  intro row hrow cell
  have hrow2 : ∃ name fr, (name, fr) ∈ files ∧ row ∈ fileRows name fr := by
    unfold build_database at hrow
    rw [if_neg (by simpa [List.isEmpty_iff] using hne)] at hrow
    rcases buildGo_mem hrow with h | h
    · cases h
    · exact h
  rcases hrow2 with ⟨name, fr, _, hrowmem⟩
  constructor
  · intro hin
    rcases mem_toRows hrowmem "modifier" cell hin with ⟨col, hcol, hname, hcell | hcell⟩
    · rcases pipeline_modifier_cols_good (normalize_columns fr) name col hcol hname
        cell hcell with hnull | ⟨s, hs, h1, h2, h3, h4⟩
      · subst hnull
        refine ⟨?_, ?_, ?_, ?_⟩ <;> intro hx <;> cases hx
      · subst hs
        refine ⟨?_, ?_, ?_, ?_⟩ <;> intro hx <;>
          [exact h1 (Cell.str.inj hx); exact h2 (Cell.str.inj hx);
           exact h3 (Cell.str.inj hx); exact h4 (Cell.str.inj hx)]
    · subst hcell
      refine ⟨?_, ?_, ?_, ?_⟩ <;> intro hx <;> cases hx
  · intro hin
    rcases mem_toRows hrowmem "code" cell hin with ⟨col, hcol, hname, hcell | hcell⟩
    · exact Or.inr (pipeline_code_cols_good (normalize_columns fr) name col hcol hname
        cell hcell)
    · exact Or.inl hcell

/-- Witness for `normalizer_invariants` at the concrete good file. -/
theorem normalizer_invariants_witness :
    (∀ row ∈ (build_database [] [(("fh.xlsx" : String), wFrameGood)]).1, ∀ cell,
      (("modifier", cell) ∈ row →
        cell ≠ Cell.str "" ∧ cell ≠ Cell.str ("nan") ∧
          cell ≠ Cell.str ("NaN") ∧ cell ≠ Cell.str ("None")) ∧
      (("code", cell) ∈ row →
        cell = Cell.null ∨ ∃ s, cell = Cell.str (codeNorm s))) ∧
    (∀ s : String, endsDotZeroZero (pyStrip s) = false →
      endsDotZero (codeNorm s) = false) :=
  normalizer_invariants [] [(("fh.xlsx" : String), wFrameGood)] (by decide)

/-- When every file passes schema validation, the loop appends every file's
normalized rows in order and reports no error. -/
theorem buildGo_valid : ∀ {files : List (String × Frame)} (t : Table),
    (∀ f ∈ files, missingRequired (normalize_columns f.2) = []) →
    buildGo t files = (t ++ (files.map (fun f => fileRows f.1 f.2)).flatten, none)
  | [], t, _ => by simp [buildGo]
  | (name, fr) :: rest, t, h => by
    have hv : validate_required (normalize_columns fr) name = Except.ok () := by
      unfold validate_required
      rw [if_pos (h (name, fr) (List.mem_cons_self _ _))]
    unfold buildGo
    rw [hv]
    rw [buildGo_valid _ (fun f hf => h f (List.mem_cons_of_mem _ hf))]
    simp [List.append_assoc]

/-- The first file failing schema validation aborts the loop: the table
keeps exactly the rows of the files processed before it, and the schema
error message is reported. -/
theorem buildGo_abort : ∀ {pre : List (String × Frame)} (t : Table)
    {name : String} {fr : Frame} {rest : List (String × Frame)},
    (∀ f ∈ pre, missingRequired (normalize_columns f.2) = []) →
    missingRequired (normalize_columns fr) ≠ [] →
    buildGo t (pre ++ (name, fr) :: rest) =
      (t ++ (pre.map (fun f => fileRows f.1 f.2)).flatten,
       some (schemaErrorMsg name (missingRequired (normalize_columns fr))))
  | [], t, name, fr, rest, _, hbad => by
    have hv : validate_required (normalize_columns fr) name =
        Except.error (schemaErrorMsg name (missingRequired (normalize_columns fr))) := by
      unfold validate_required
      rw [if_neg hbad]
    rw [List.nil_append]
    unfold buildGo
    rw [hv]
    simp
  | (n0, f0) :: pre, t, name, fr, rest, hpre, hbad => by
    have hv : validate_required (normalize_columns f0) n0 = Except.ok () := by
      unfold validate_required
      rw [if_pos (hpre (n0, f0) (List.mem_cons_self _ _))]
    rw [List.cons_append]
    unfold buildGo
    rw [hv]
    rw [buildGo_abort _ (fun f hf => hpre f (List.mem_cons_of_mem _ hf)) hbad]
    simp [List.append_assoc]

/-- Claim C6.  Ingestion is a full rebuild and therefore idempotent: a
second run on the same files leaves the table identical; for a non-empty
file list the result is independent of the prior table contents (the prior
table is dropped); and when every file validates, the loaded table is
exactly the concatenation of all files' normalized rows. -/
theorem ingestion_idempotent (prior : Table) (files : List (String × Frame)) :
    (build_database (build_database prior files).1 files).1 =
      (build_database prior files).1 ∧
    (files ≠ [] → ∀ p1 p2 : Table,
      (build_database p1 files).1 = (build_database p2 files).1) ∧
    ((files ≠ [] ∧ ∀ f ∈ files, missingRequired (normalize_columns f.2) = []) →
      (build_database prior files).1 =
        (files.map (fun f => fileRows f.1 f.2)).flatten) := by
  refine ⟨?_, ?_, ?_⟩
  · by_cases h : files.isEmpty = true
    · simp [build_database, h]
    · simp [build_database, h]
  · intro hne p1 p2
    have h : ¬files.isEmpty = true := by simpa [List.isEmpty_iff] using hne
    simp [build_database, h]
  · rintro ⟨hne, hvalid⟩
    have h : ¬files.isEmpty = true := by simpa [List.isEmpty_iff] using hne
    unfold build_database
    rw [if_neg h, buildGo_valid [] hvalid]
    simp

/-- Witness for `ingestion_idempotent` at the concrete good file. -/
theorem ingestion_idempotent_witness :
    (build_database
        (build_database [] [(("fh.xlsx" : String), wFrameGood)]).1
        [(("fh.xlsx" : String), wFrameGood)]).1 =
      (build_database [] [(("fh.xlsx" : String), wFrameGood)]).1 ∧
    ((([(("fh.xlsx" : String), wFrameGood)] : List (String × Frame)) ≠ []) →
      ∀ p1 p2 : Table,
        (build_database p1 [(("fh.xlsx" : String), wFrameGood)]).1 =
          (build_database p2 [(("fh.xlsx" : String), wFrameGood)]).1) ∧
    ((([(("fh.xlsx" : String), wFrameGood)] : List (String × Frame)) ≠ [] ∧
        ∀ f ∈ ([(("fh.xlsx" : String), wFrameGood)] : List (String × Frame)),
          missingRequired (normalize_columns f.2) = []) →
      (build_database [] [(("fh.xlsx" : String), wFrameGood)]).1 =
        (([(("fh.xlsx" : String), wFrameGood)] : List (String × Frame)).map
          (fun f => fileRows f.1 f.2)).flatten) :=
  ingestion_idempotent [] [(("fh.xlsx" : String), wFrameGood)]

/-- Claim C7.  If a source file lacks a required column after header
normalization, the build aborts with the schema error naming that file and
its missing columns (the message is the file name followed by the sorted
missing column list), no row of that file or of later files is loaded, and
the rows of the files processed earlier in the same run are exactly what the
table keeps. -/
theorem schema_error_aborts_file (prior : Table) (pre : List (String × Frame))
    (name : String) (fr : Frame) (rest : List (String × Frame))
    (hpre : ∀ f ∈ pre, missingRequired (normalize_columns f.2) = [])
    (hbad : missingRequired (normalize_columns fr) ≠ []) :
    build_database prior (pre ++ (name, fr) :: rest) =
      ((pre.map (fun f => fileRows f.1 f.2)).flatten,
       some (schemaErrorMsg name (missingRequired (normalize_columns fr)))) ∧
    schemaErrorMsg name (missingRequired (normalize_columns fr)) =
      name ++ (": Missing required column(s): ") ++
        String.intercalate (", ") (missingRequired (normalize_columns fr)) := by
  refine ⟨?_, rfl⟩
  unfold build_database
  rw [if_neg (by simp), buildGo_abort [] hpre hbad]
  simp

/-- Witness for `schema_error_aborts_file`: a good first file followed by a
file missing the product column. -/
theorem schema_error_aborts_file_witness :
    build_database [] ([(("a.xlsx" : String), wFrameGood)] ++
        (("b.xlsx" : String), wFrameBad) :: []) =
      ((([(("a.xlsx" : String), wFrameGood)] : List (String × Frame)).map
          (fun f => fileRows f.1 f.2)).flatten,
       some (schemaErrorMsg ("b.xlsx") (missingRequired (normalize_columns wFrameBad)))) ∧
    schemaErrorMsg ("b.xlsx") (missingRequired (normalize_columns wFrameBad)) =
      ("b.xlsx" : String) ++ (": Missing required column(s): ") ++
        String.intercalate (", ") (missingRequired (normalize_columns wFrameBad)) :=
  schema_error_aborts_file [] [(("a.xlsx" : String), wFrameGood)] ("b.xlsx")
    wFrameBad [] (by decide) (by decide)

/-- The final geozip column of the per-file pipeline is exactly the source
geozips the model's coercion keeps (finite coercions), in order, stored as
integers. -/
theorem pipeline_geozip_col (f1 : Frame) (name : String) :
    (pipelineAfterValidate name f1).getCol ("geozip") =
      some (((f1.getCol ("geozip")).getD []).filterMap
        (fun c => (toNumericInt? c).map Cell.intv)) := by
  have hdesc : (normalize_description f1).getCol ("geozip") = f1.getCol ("geozip") := by
    cases hfind : descAliases.find? (fun c => f1.colNames.contains c) with
    | none =>
      simp only [normalize_description, hfind]
      exact getCol_setCol_ne (by decide)
    | some c =>
      have hc : c ∈ descAliases := List.mem_of_find?_eq_some hfind
      have hcg : ("geozip" : String) ≠ c := by
        simp only [descAliases, List.mem_cons, List.not_mem_nil, or_false] at hc
        rcases hc with h | h | h <;> subst h <;> decide
      simp only [normalize_description, hfind]
      by_cases he : c = "description"
      · rw [if_pos he]
      · rw [if_neg he]
        exact getCol_renameCol_ne hcg (by decide)
  have hcode : (normalize_code (normalize_description f1)).getCol ("geozip") =
      f1.getCol ("geozip") := by
    unfold normalize_code
    rw [getCol_setCol_ne (by decide), hdesc]
  have hgz : (normalize_geozip (normalize_code (normalize_description f1))).getCol
      ("geozip") =
      some (((f1.getCol ("geozip")).getD []).filterMap
        (fun c => (toNumericInt? c).map Cell.intv)) := by
    unfold normalize_geozip
    rw [getCol_setCol_self, hcode]
  unfold pipelineAfterValidate tagSourceFile normalize_product normalize_modifier
  rw [getCol_setCol_ne (by decide), getCol_setCol_ne (by decide)]
  by_cases h : (normalize_geozip (normalize_code
      (normalize_description f1))).colNames.contains ("modifier") = true
  · rw [if_pos h, getCol_setCol_ne (by decide), hgz]
  · rw [if_neg h, getCol_setCol_ne (by decide), hgz]

/-- Claim C8 exhibit (geozip coercion bug).  Pandas coercion on geozip text,
modelled on its decimal / scientific / non-finite fragment: text that fails
numeric parsing is NaN and its row is silently dropped by
`dropna(subset=["geozip"])`; finite decimal and scientific text is coerced
and the row is KEPT with the value truncated to an integer — so geozip
"75001.0", "75001.9" or "7.5e4" survives, it is not dropped; but text that
coerces to a NON-finite float, such as "inf" or "-Infinity", is neither NaN
(so `dropna` keeps its row) nor storable as an integer, and
`df["geozip"].astype(int)` raises, aborting the whole build — the program
errors exactly where the claim, restating the spec's DataQualityDrop
policy, promises a silent per-row drop and a build that never fails.  The
model keeps the build total by excluding such a row, so the crash is
recorded here at the coercion level; the last conjunct shows the
decimal-text geozip stored, at build level, as the integer 75001. -/
theorem geozip_coercion_exhibit :
    toNumericCoerce (Cell.str ("75001.0")) = Coerced.ival 75001 ∧
    toNumericCoerce (Cell.str ("75001.9")) = Coerced.ival 75001 ∧
    toNumericCoerce (Cell.str ("7.5e4")) = Coerced.ival 75000 ∧
    toNumericCoerce (Cell.str ("abc")) = Coerced.nan ∧
    toNumericCoerce (Cell.str ("")) = Coerced.nan ∧
    toNumericCoerce (Cell.str ("inf")) = Coerced.nonfinite ∧
    toNumericCoerce (Cell.str ("-Infinity")) = Coerced.nonfinite ∧
    (pipelineAfterValidate ("fh.xlsx") (normalize_columns wFrameDecimal)).getCol
        ("geozip") = some [Cell.intv 75001] := by
  refine ⟨?_, ?_, ?_, ?_, ?_, ?_, ?_, ?_⟩ <;> decide

/-- Claim C9 exhibit.  The handler closes the connection whenever the try
block is reached — normal return, placeholder-only return, or an exception
inside the resolution loop — but when `ensure_log_table` raises after the
connection was acquired and before the try block, the connection is never
closed: the code violates the release-on-every-exit-path contract on that
one path. -/
theorem connection_leak_on_log_setup_failure :
    ((lookupHandler [] 0 [("1" : String)] none none false true).connAcquired = true ∧
     (lookupHandler [] 0 [("1" : String)] none none false true).connClosed = false) ∧
    (∀ b : Bool,
      (lookupHandler [] 0 [("1" : String)] none none true b).connClosed = true) := by
  refine ⟨⟨rfl, rfl⟩, fun b => ?_⟩
  cases b <;> rfl

end TXFH
